import Mathlib

/-!
Verification development for the desktop-wakatime activity-tracking core.

The TypeScript sources are shallowly embedded as executable Lean
definitions:

* string helpers model the `node:path` / `String.prototype` operations
  the code relies on (`path.basename`, `String.includes`, the
  extension-stripping regex `\.[^/.]+$`, `toLowerCase`);
* `ProcessMonitor.isProcessRunning` and the platform parsers become pure
  functions over a `RunningProcess` list;
* `EnrolledProgramsManager` becomes explicit state passing over a
  `RegistryState` (in-memory list plus the persisted file, the latter
  modelled by `DiskFile`); filesystem existence and clock readings are
  passed in as parameters;
* `ProcessWatcher.checkEnrolledPrograms` becomes a step function from
  `PollState` to `PollState` that also reports the observable events of
  one polling cycle (`CycleOutput`);
* the window-mode `Watcher` focus callback becomes a step function on
  `WState`.
-/

namespace DesktopWakatime

/-- Split a character list into the segments delimited by separator
characters; separators are dropped and empty segments are kept
(e.g. splitting "a//b" on '/' yields ["a", "", "b"]). -/
def splitSegs (isSep : Char → Bool) : List Char → List (List Char)
  | [] => [[]]
  | c :: cs =>
    let r := splitSegs isSep cs
    if isSep c then [] :: r
    else
      match r with
      | [] => [[c]]
      | s :: rest => (c :: s) :: rest

/-- Model of node's `path.basename` for a given set of separator
characters: the last nonempty segment of the path, or `""` when there is
none. -/
def basenameBy (isSep : Char → Bool) (p : String) : String :=
  String.mk (((splitSegs isSep p.toList).filter (· ≠ [])).getLastD [])

/-- Node `path.basename` as it behaves on POSIX platforms (separator `/`). -/
def basename (p : String) : String :=
  basenameBy (fun c => c == '/') p

/-- Node `path.basename` as it behaves on Windows (separators `/` and `\`). -/
def basenameWin32 (p : String) : String :=
  basenameBy (fun c => c == '/' || c == '\\') p

/-- Model of `s.replace(/\.[^/.]+$/, '')`: drop a trailing `.ext` where
`ext` is nonempty and contains neither `.` nor `/`; otherwise return the
string unchanged. -/
def stripExt (s : String) : String :=
  let r := s.toList.reverse
  let ext := r.takeWhile (fun c => c ≠ '.' && c ≠ '/')
  match r.dropWhile (fun c => c ≠ '.' && c ≠ '/') with
  | '.' :: rest => if ext.isEmpty then s else String.mk rest.reverse
  | _ => s

/-- Boolean list-prefix test (structural, used by `listHasInfixSeg`). -/
def isPrefixList : List Char → List Char → Bool
  | [], _ => true
  | _ :: _, [] => false
  | a :: as, b :: bs => a == b && isPrefixList as bs

/-- Boolean contiguous-sublist test: does `needle` occur inside `hay`? -/
def listHasInfixSeg (needle : List Char) : List Char → Bool
  | [] => needle.isEmpty
  | c :: rest => isPrefixList needle (c :: rest) || listHasInfixSeg needle rest

/-- Model of JavaScript `hay.includes(needle)` (substring containment). -/
def strIncludes (hay needle : String) : Bool :=
  listHasInfixSeg needle.toList hay.toList

/-- Model of JavaScript `toLowerCase` on one character, for the ASCII
range (the only range the static language table exercises). -/
def charToLower (c : Char) : Char :=
  if 65 ≤ c.toNat ∧ c.toNat ≤ 90 then Char.ofNat (c.toNat + 32) else c

/-- Model of JavaScript `s.toLowerCase()`. -/
def strToLower (s : String) : String :=
  String.mk (s.toList.map charToLower)

/-- Fuel-driven worker for `jsSplit`: emit the accumulated segment each
time the separator occurs, scanning left to right without overlap. The
fuel is an upper bound on the scanned length, so it never runs out when
called with `l.length + 1`. -/
def splitFuel (sep : List Char) : Nat → List Char → List Char → List (List Char)
  | 0, l, acc => [acc.reverse ++ l]
  | _ + 1, [], acc => [acc.reverse]
  | n + 1, c :: rest, acc =>
    if sep ≠ [] ∧ isPrefixList sep (c :: rest) = true then
      acc.reverse :: splitFuel sep n (List.drop (sep.length - 1) rest) []
    else splitFuel sep n rest (c :: acc)

/-- Model of JavaScript `s.split(sep)` for a nonempty string separator. -/
def jsSplit (sep s : String) : List String :=
  (splitFuel sep.toList (s.toList.length + 1) s.toList []).map String.mk

/-- Model of JavaScript `s.trim()` (ASCII whitespace). -/
def jsTrim (s : String) : String :=
  let ws := fun c => c == ' ' || c == '\t' || c == '\n' || c == '\r'
  String.mk (((s.toList.dropWhile ws).reverse.dropWhile ws).reverse)

/-- One entry of a process snapshot: `{ pid, name, command }` as produced
by the platform scanners in `ProcessMonitor`. -/
structure RunningProcess where
  pid : Nat
  name : String
  command : String
deriving DecidableEq, Repr

/-- Embedding of `ProcessMonitor.isProcessRunning`, parametrised by the basename
function because node's `path.basename` is platform dependent. The body
mirrors the source: exact short-name match, then command-line substring
match, then extension-stripped name match. -/
def isProcessRunningCore (bn : String → String) (processes : List RunningProcess)
    (executablePath : String) : Bool :=
  let executableName := bn executablePath
  processes.any fun proc =>
    if proc.name == executableName then true
    else if strIncludes proc.command executablePath then true
    else stripExt proc.name == stripExt executableName

/-- Specialisation of `ProcessMonitor.isProcessRunning` to POSIX platforms. -/
def isProcessRunning (processes : List RunningProcess) (executablePath : String) : Bool :=
  isProcessRunningCore basename processes executablePath

/-- Specialisation of `ProcessMonitor.isProcessRunning` to Windows. -/
def isProcessRunningWin (processes : List RunningProcess) (executablePath : String) : Bool :=
  isProcessRunningCore basenameWin32 processes executablePath

/-- Embedding of `ProcessMonitor.getRunningEnrolledPrograms`: the enrolled paths that
are currently running, in input order. -/
def getRunningEnrolledPrograms (processes : List RunningProcess)
    (enrolledPaths : List String) : List String :=
  enrolledPaths.filter (fun p => isProcessRunning processes p)

/-- An `EnrolledProgram` record as persisted by
`EnrolledProgramsManager` (timestamps are kept as opaque strings, as in
the JSON file). -/
structure EnrolledProgram where
  id : String
  name : String
  path : String
  enrolledAt : String
  lastSeen : Option String
deriving DecidableEq, Repr

/-- The persisted `enrolled-programs.json` file: absent, unreadable or
failing schema validation, or successfully parsed content. -/
inductive DiskFile where
  | absent : DiskFile
  | corrupt : DiskFile
  | content : List EnrolledProgram → DiskFile
deriving DecidableEq, Repr

/-- State of `EnrolledProgramsManager`: the in-memory list and the
persisted file it mirrors. -/
structure RegistryState where
  programs : List EnrolledProgram
  disk : DiskFile
deriving DecidableEq, Repr

/-- Embedding of `savePrograms`: rewrite the persisted file from the in-memory list
(the disk write is assumed to succeed; a failed write only logs). -/
def saveState (st : RegistryState) : RegistryState :=
  { st with disk := DiskFile.content st.programs }

/-- Embedding of `isProgramEnrolled`: membership by exact path match. -/
def isProgramEnrolled (programs : List EnrolledProgram) (programPath : String) : Bool :=
  programs.any (fun p => p.path == programPath)

/-- Embedding of `getProgramByPath`: first record with the given path, if any. -/
def getProgramByPath (programs : List EnrolledProgram) (programPath : String) :
    Option EnrolledProgram :=
  programs.find? (fun p => p.path == programPath)

/-- Embedding of `getProgramById`: first record with the given id, if any. -/
def getProgramById (programs : List EnrolledProgram) (progId : String) :
    Option EnrolledProgram :=
  programs.find? (fun p => p.id == progId)

/-- Embedding of `getEnrolledPaths`: the paths of all records, in registry order. -/
def getEnrolledPaths (programs : List EnrolledProgram) : List String :=
  programs.map (fun p => p.path)

/-- Embedding of `loadPrograms`: read the persisted file. An absent file is created
from the current (empty at construction) in-memory list; a parse failure
leaves an empty in-memory registry; parsed content is filtered down to
the records whose path still exists on disk and the pruned list is
persisted. `fsExists` models `fs.existsSync`. -/
def loadPrograms (fsExists : String → Bool) (st : RegistryState) : RegistryState :=
  match st.disk with
  | DiskFile.absent => saveState st
  | DiskFile.corrupt => { st with programs := [] }
  | DiskFile.content ps =>
    let kept := ps.filter (fun p => fsExists p.path)
    { programs := kept, disk := DiskFile.content kept }

/-- Embedding of `enrollProgram`: reject a path that does not exist on disk or is
already enrolled (the thrown error is caught and surfaced as `null`,
modelled by `none`); otherwise append a record built from the generated
id `newId`, the current time `now` and the path's basename, then
persist. -/
def enrollProgram (fsExists : String → Bool) (newId now : String)
    (st : RegistryState) (programPath : String) :
    Option EnrolledProgram × RegistryState :=
  if !fsExists programPath then (none, st)
  else if isProgramEnrolled st.programs programPath then (none, st)
  else
    let newProgram : EnrolledProgram :=
      { id := newId, name := basename programPath, path := programPath,
        enrolledAt := now, lastSeen := none }
    let ps := st.programs ++ [newProgram]
    (some newProgram, { programs := ps, disk := DiskFile.content ps })

/-- Embedding of `removeProgram`: a `findIndex` on the id followed by `splice(index, 1)`
and a persist; `false` (not found) leaves the state untouched. -/
def removeProgram (st : RegistryState) (programId : String) : Bool × RegistryState :=
  match st.programs.findIdx? (fun p => p.id == programId) with
  | none => (false, st)
  | some i => (true, saveState { st with programs := st.programs.eraseIdx i })

/-- In-place `lastSeen` update of the first record with the given path
(`getProgramByPath` returns a reference that is then mutated). -/
def updateLastSeenList (now programPath : String) :
    List EnrolledProgram → List EnrolledProgram
  | [] => []
  | p :: rest =>
    if p.path == programPath then { p with lastSeen := some now } :: rest
    else p :: updateLastSeenList now programPath rest

/-- Embedding of `updateLastSeen`: stamp `lastSeen` on the record with the given path
and persist; a no-op when no record matches. -/
def updateLastSeen (now : String) (st : RegistryState) (programPath : String) :
    RegistryState :=
  if (getProgramByPath st.programs programPath).isSome then
    let ps := updateLastSeenList now programPath st.programs
    { programs := ps, disk := DiskFile.content ps }
  else st

/-- The static executable-name → language table of
`ProcessWatcher.determineLanguageFromPath`, in source order. -/
def languageMap : List (String × String) :=
  [("code", "TypeScript"),
   ("code-oss", "TypeScript"),
   ("codium", "TypeScript"),
   ("vim", "Vim Script"),
   ("nvim", "Vim Script"),
   ("neovim", "Vim Script"),
   ("emacs", "Emacs Lisp"),
   ("nano", "Text"),
   ("gedit", "Text"),
   ("kate", "Text"),
   ("atom", "Text"),
   ("sublime_text", "Text"),
   ("webstorm", "JavaScript"),
   ("phpstorm", "PHP"),
   ("pycharm", "Python"),
   ("intellij", "Java"),
   ("eclipse", "Java"),
   ("netbeans", "Java"),
   ("rider", "C#"),
   ("clion", "C++"),
   ("goland", "Go"),
   ("rubymine", "Ruby")]

/-- Embedding of `determineLanguageFromPath`: lower-case the executable basename, return
the language of the first table key it contains, else "Other". -/
def determineLanguageFromPath (programPath : String) : String :=
  let programName := strToLower (basename programPath)
  match languageMap.find? (fun kv => strIncludes programName kv.1) with
  | some kv => kv.2
  | none => "Other"

/-- The fields of the payload passed to `wakatime.sendHeartbeat` that
this core decides (app/window metadata mirrors the same record and is
omitted). -/
structure HeartbeatRecord where
  project : String
  entity : String
  entityType : String
  category : String
  language : String
  isWrite : Bool
deriving DecidableEq, Repr

/-- Embedding of `ProcessWatcher.sendProgramHeartbeat`: look the path up in the
registry; silently drop when it is not enrolled, otherwise build the
heartbeat payload. Returns the dispatched record. -/
def sendProgramHeartbeat (programs : List EnrolledProgram) (programPath : String) :
    Option HeartbeatRecord :=
  match getProgramByPath programs programPath with
  | none => none
  | some program =>
    some { project := program.name, entity := programPath, entityType := "app",
           category := "coding",
           language := determineLanguageFromPath programPath, isWrite := false }

/-- JavaScript `new Set(list)` flattened back to a list: first-occurrence
order, duplicates dropped. -/
def jsSetOfList (l : List String) : List String :=
  l.foldl (fun acc x => if acc.contains x then acc else acc ++ [x]) []

/-- State of `ProcessWatcher` that persists across polling cycles:
the registry it works on and `lastReportedPrograms`. -/
structure PollState where
  registry : RegistryState
  lastReported : List String
deriving DecidableEq, Repr

/-- Observable events of one `checkEnrolledPrograms` cycle: whether the
scanner was invoked, the "entered"/"stopped" log transitions, and the
heartbeats dispatched (in order). -/
structure CycleOutput where
  scanned : Bool
  entered : List String
  exited : List String
  heartbeats : List HeartbeatRecord
deriving DecidableEq, Repr

/-- The empty cycle output (nothing scanned, logged or dispatched). -/
def noCycleOutput : CycleOutput :=
  { scanned := false, entered := [], exited := [], heartbeats := [] }

/-- Embedding of `ProcessWatcher.checkEnrolledPrograms` for one cycle: skip when no
program is enrolled; otherwise scan, log enter/exit transitions against
`lastReportedPrograms`, dispatch one heartbeat per running path (updating
`lastSeen` after each), and replace `lastReportedPrograms` with the
current running set. `procs` is the process snapshot the scanner sees and
`now` the timestamp used for `lastSeen`. -/
def checkEnrolledPrograms (procs : List RunningProcess) (now : String)
    (st : PollState) : CycleOutput × PollState :=
  let enrolledPaths := getEnrolledPaths st.registry.programs
  if enrolledPaths.length == 0 then (noCycleOutput, st)
  else
    let runningPrograms := getRunningEnrolledPrograms procs enrolledPaths
    let entered := runningPrograms.filter (fun p =>
      !st.lastReported.contains p && (getProgramByPath st.registry.programs p).isSome)
    let exited := st.lastReported.filter (fun p =>
      !runningPrograms.contains p && (getProgramByPath st.registry.programs p).isSome)
    let step := fun (acc : List HeartbeatRecord × RegistryState) (p : String) =>
      ((sendProgramHeartbeat acc.2.programs p).elim acc.1 (fun hb => acc.1 ++ [hb]),
       updateLastSeen now acc.2 p)
    let hr := runningPrograms.foldl step ([], st.registry)
    ({ scanned := true, entered := entered, exited := exited, heartbeats := hr.1 },
     { registry := hr.2, lastReported := jsSetOfList runningPrograms })

/-- The platform timer registry: the ids of currently armed interval
timers and the next fresh handle. Models `setInterval`/`clearInterval`. -/
structure TimerSys where
  active : List Nat
  next : Nat
deriving DecidableEq, Repr

/-- Model of `setInterval`: arm a fresh timer and return its handle. -/
def setIntervalM (ts : TimerSys) : Nat × TimerSys :=
  (ts.next, { active := ts.active ++ [ts.next], next := ts.next + 1 })

/-- Model of `clearInterval`: disarm the timer with the given handle. -/
def clearIntervalM (h : Nat) (ts : TimerSys) : TimerSys :=
  { ts with active := ts.active.filter (fun x => x ≠ h) }

/-- The timer-related state of `ProcessWatcher`: its `intervalId` field. -/
structure PWState where
  intervalId : Option Nat
deriving DecidableEq, Repr

/-- A freshly constructed `ProcessWatcher` (no timer armed). -/
def pwInit : PWState := { intervalId := none }

/-- Embedding of `ProcessWatcher.stop`: clear the interval and null the handle when
one is armed, otherwise do nothing. -/
def pwStop (st : PWState) (ts : TimerSys) : PWState × TimerSys :=
  match st.intervalId with
  | some h => ({ intervalId := none }, clearIntervalM h ts)
  | none => (st, ts)

/-- Embedding of `ProcessWatcher.start`: stop the existing timer when one is armed,
then arm a fresh interval timer and store its handle. (The immediate
`checkEnrolledPrograms` call and the log line do not touch timer
state and are modelled separately by `checkEnrolledPrograms`.) -/
def pwStart (st : PWState) (ts : TimerSys) : PWState × TimerSys :=
  let stopped := if st.intervalId.isSome then pwStop st ts else (st, ts)
  let armed := setIntervalM stopped.2
  ({ intervalId := some armed.1 }, armed.2)

/-- Embedding of `ProcessWatcher.isRunning`: whether a timer handle is held. -/
def pwIsRunning (st : PWState) : Bool :=
  st.intervalId.isSome

/-- The watcher's timer handle and the OS timer registry agree: the held
handle is the unique armed timer, or no timer is armed. -/
def pwWf (st : PWState) (ts : TimerSys) : Prop :=
  match st.intervalId with
  | some h => ts.active = [h]
  | none => ts.active = []

/-- The identity of a focused window as delivered by the window-focus
subscription (`windowInfo.info`). -/
structure WinInfo where
  processId : Nat
  path : String
  name : String
deriving DecidableEq, Repr

/-- The state of the window/keyboard-mode `Watcher` touched by its
focus-change callback. -/
structure WState where
  activeWindow : Option WinInfo
  watchingKeyboard : Bool
  fallbackMode : Bool
deriving DecidableEq, Repr

/-- Observable actions of one focus-change callback run: whether the
monitored status of the window's path was (re-)evaluated, and whether
keyboard watching was stopped / started. -/
structure FocusOutput where
  checkedMonitored : Bool
  stoppedKeyboard : Bool
  startedKeyboard : Bool
deriving DecidableEq, Repr

/-- A focus-change callback run with no observable action. -/
def noFocusOutput : FocusOutput :=
  { checkedMonitored := false, stoppedKeyboard := false, startedKeyboard := false }

/-- The `subscribeActiveWindow` callback of `Watcher.start`: ignore
events with a falsy processId or the processId already tracked;
otherwise stop keyboard watching if active, adopt the new window, and
when its path is nonempty evaluate `MonitoringManager.isMonitored`
(modelled by the `isMonitored` parameter) to decide whether to start
keyboard watching. -/
def onFocusChange (isMonitored : String → Bool) (st : WState) (w : WinInfo) :
    WState × FocusOutput :=
  if w.processId == 0 then (st, noFocusOutput)
  else if (st.activeWindow.map (fun aw => aw.processId)) == some w.processId then
    (st, noFocusOutput)
  else
    let stopped := st.watchingKeyboard
    let st1 : WState :=
      { st with watchingKeyboard := false, activeWindow := some w }
    if w.path ≠ "" then
      if isMonitored w.path then
        ({ st1 with watchingKeyboard := true },
         { checkedMonitored := true, stoppedKeyboard := stopped, startedKeyboard := true })
      else
        (st1, { checkedMonitored := true, stoppedKeyboard := stopped,
                startedKeyboard := false })
    else
      (st1, { checkedMonitored := false, stoppedKeyboard := stopped,
              startedKeyboard := false })

/-- Model of `part.replace(/"/g, '')`: remove every double-quote character. -/
def stripQuotes (s : String) : String :=
  String.mk (s.toList.filter (fun c => c ≠ '"'))

/-- JavaScript `parseInt` restricted to the nonnegative-decimal case the
tasklist output produces; an unparseable pid (`NaN`) is mapped to 0
(the pid value is not used by any verified property). -/
def jsParseIntNat (s : String) : Nat :=
  (s.toList.takeWhile (fun c => c.isDigit)).foldl
    (fun n c => n * 10 + (c.toNat - 48)) 0

/-- One line of `tasklist /fo csv /nh` output: split on the quoted-CSV
separator, strip quotes, drop the line when it has fewer than two
fields, and use the image name for both the short name and the command
(tasklist provides no command path). -/
def parseTasklistLine (line : String) : Option RunningProcess :=
  match (jsSplit "\",\"" line).map stripQuotes with
  | a :: b :: _ => some { pid := jsParseIntNat b, name := a, command := a }
  | _ => none

/-- Embedding of `ProcessMonitor.getWindowsProcesses` parsing: trim, split into
lines, and parse each line, dropping malformed ones. -/
def parseWindowsTasklist (stdout : String) : List RunningProcess :=
  (jsSplit "\n" (jsTrim stdout)).filterMap parseTasklistLine

/-! ### Helper lemmas -/

theorem boolIfChain (a b c : Bool) :
    (if a = true then true else if b = true then true else c) = (a || b || c) := by
  cases a <;> cases b <;> simp

theorem strMk_toList (s : String) : String.mk s.toList = s := rfl

/-! ### Claim theorems -/

/-- C2: `isProcessRunning p` holds exactly when some scanned process
matches by exact short name, by command-line substring, or by
extension-stripped short name (all comparisons case-sensitive, i.e.
plain string equality / containment). -/
theorem claim_C2 (processes : List RunningProcess) (executablePath : String) :
    isProcessRunning processes executablePath = true ↔
      ∃ proc ∈ processes,
        proc.name = basename executablePath ∨
        strIncludes proc.command executablePath = true ∨
        stripExt proc.name = stripExt (basename executablePath) := by
  simp only [isProcessRunning, isProcessRunningCore, List.any_eq_true, beq_iff_eq]
  constructor
  · rintro ⟨proc, hmem, hif⟩
    refine ⟨proc, hmem, ?_⟩
    split at hif
    · left; assumption
    · split at hif
      · right; left; assumption
      · right; right; simpa using hif
  · rintro ⟨proc, hmem, h | h | h⟩ <;> refine ⟨proc, hmem, ?_⟩
    · simp [h]
    · split
      · rfl
      · simp [h]
    · split
      · rfl
      · split
        · rfl
        · simpa using h

/-- C7: when no program is enrolled, a polling cycle performs no scan,
emits no transitions, dispatches no heartbeats, and leaves the whole
watcher state — `lastReportedPrograms` included — unchanged. -/
theorem claim_C7 (procs : List RunningProcess) (now : String) (st : PollState)
    (h : getEnrolledPaths st.registry.programs = []) :
    checkEnrolledPrograms procs now st = (noCycleOutput, st) := by
  simp [checkEnrolledPrograms, h]

/-- Witness for C7: an empty registry whose watcher still remembers a
previously running path; the cycle does nothing and the remembered set
is preserved, not reset. -/
theorem claim_C7_witness :
    checkEnrolledPrograms [⟨1, "progA", "/usr/bin/progA"⟩] "t9"
        { registry := { programs := [], disk := DiskFile.content [] },
          lastReported := ["/usr/bin/progA"] } =
      (noCycleOutput,
       { registry := { programs := [], disk := DiskFile.content [] },
         lastReported := ["/usr/bin/progA"] }) :=
  claim_C7 [⟨1, "progA", "/usr/bin/progA"⟩] "t9"
    { registry := { programs := [], disk := DiskFile.content [] },
      lastReported := ["/usr/bin/progA"] } rfl

/-- C9: a focus-change event carrying the processId that is already
tracked changes nothing: the active window is kept, keyboard watching is
neither stopped nor started, and the monitored status of the window's
path is not re-evaluated. -/
theorem claim_C9 (isMonitored : String → Bool) (st : WState) (w : WinInfo)
    (aw : WinInfo) (h1 : st.activeWindow = some aw)
    (h2 : aw.processId = w.processId) :
    onFocusChange isMonitored st w = (st, noFocusOutput) := by
  unfold onFocusChange
  by_cases h0 : w.processId == 0
  · simp [h0]
  · simp [h0, h1, h2]

/-- Witness for C9: a repeated focus event for pid 7 while keyboard
watching is active leaves the state untouched and evaluates nothing. -/
theorem claim_C9_witness :
    onFocusChange (fun _ => true)
        { activeWindow := some ⟨7, "/usr/bin/progA", "progA"⟩,
          watchingKeyboard := true, fallbackMode := false }
        ⟨7, "/usr/bin/progA", "progA"⟩ =
      ({ activeWindow := some ⟨7, "/usr/bin/progA", "progA"⟩,
         watchingKeyboard := true, fallbackMode := false },
       noFocusOutput) :=
  claim_C9 (fun _ => true)
    { activeWindow := some ⟨7, "/usr/bin/progA", "progA"⟩,
      watchingKeyboard := true, fallbackMode := false }
    ⟨7, "/usr/bin/progA", "progA"⟩ ⟨7, "/usr/bin/progA", "progA"⟩ rfl rfl

/-- C4: a corrupt persisted file loads as the empty registry, and a
successfully parsed file is pruned to the records whose path still
exists, with the pruned list persisted, so a record whose target was
deleted from disk is absent after the load. -/
theorem claim_C4 (fsExists : String → Bool) (st : RegistryState)
    (ps : List EnrolledProgram) :
    (st.disk = DiskFile.corrupt → (loadPrograms fsExists st).programs = []) ∧
    (st.disk = DiskFile.content ps →
      (loadPrograms fsExists st).programs = ps.filter (fun p => fsExists p.path) ∧
      (loadPrograms fsExists st).disk =
        DiskFile.content (ps.filter (fun p => fsExists p.path)) ∧
      ∀ p ∈ ps, fsExists p.path = false → p ∉ (loadPrograms fsExists st).programs) := by
  constructor
  · intro h
    simp [loadPrograms, h]
  · intro h
    refine ⟨by simp [loadPrograms, h], by simp [loadPrograms, h], ?_⟩
    intro p _ hgone hmem
    rw [loadPrograms, h] at hmem
    simp only [List.mem_filter] at hmem
    rw [hgone] at hmem
    exact Bool.false_ne_true hmem.2

/-- Witness for C4: loading a corrupt file yields an empty registry, and
loading a two-record file whose second path was deleted keeps exactly
the surviving record and persists the pruned list. -/
theorem claim_C4_witness :
    (loadPrograms (fun p => p == "/usr/bin/progA")
        { programs := [], disk := DiskFile.corrupt }).programs = [] ∧
    (loadPrograms (fun p => p == "/usr/bin/progA")
        { programs := [],
          disk := DiskFile.content
            [{ id := "idA", name := "progA", path := "/usr/bin/progA",
               enrolledAt := "t0", lastSeen := none },
             { id := "idB", name := "progB", path := "/usr/bin/progB",
               enrolledAt := "t0", lastSeen := none }] }).programs =
      [{ id := "idA", name := "progA", path := "/usr/bin/progA",
         enrolledAt := "t0", lastSeen := none }] := by
  constructor
  · exact (claim_C4 (fun p => p == "/usr/bin/progA")
      { programs := [], disk := DiskFile.corrupt } []).1 rfl
  · have h := (claim_C4 (fun p => p == "/usr/bin/progA")
      { programs := [],
        disk := DiskFile.content
          [{ id := "idA", name := "progA", path := "/usr/bin/progA",
             enrolledAt := "t0", lastSeen := none },
           { id := "idB", name := "progB", path := "/usr/bin/progB",
             enrolledAt := "t0", lastSeen := none }] }
      [{ id := "idA", name := "progA", path := "/usr/bin/progA",
         enrolledAt := "t0", lastSeen := none },
       { id := "idB", name := "progB", path := "/usr/bin/progB",
         enrolledAt := "t0", lastSeen := none }]).2 rfl
    rw [h.1]
    decide

/-- C6: every polling-mode heartbeat for an enrolled program carries
`entityType = "app"`, `entity` = the executable path, `project` = the
program's display name, `isWrite = false`, and a language obtained from
the static table by case-insensitive substring lookup on the executable
basename, with "Other" whenever no table entry matches. -/
theorem claim_C6 (programs : List EnrolledProgram) (programPath : String)
    (prog : EnrolledProgram)
    (h : getProgramByPath programs programPath = some prog) :
    sendProgramHeartbeat programs programPath =
      some { project := prog.name, entity := programPath, entityType := "app",
             category := "coding",
             language := determineLanguageFromPath programPath, isWrite := false } ∧
    ((∀ kv ∈ languageMap,
        strIncludes (strToLower (basename programPath)) kv.1 = false) →
      determineLanguageFromPath programPath = "Other") := by
  constructor
  · simp [sendProgramHeartbeat, h]
  · intro hnone
    have hfind : languageMap.find?
        (fun kv => strIncludes (strToLower (basename programPath)) kv.1) = none := by
      rw [List.find?_eq_none]
      intro kv hkv
      simp [hnone kv hkv]
    simp [determineLanguageFromPath, hfind]

/-- Witness for C6: the enrolled VS Code binary produces a heartbeat
with the required fields and language "TypeScript" from the table. -/
theorem claim_C6_witness :
    sendProgramHeartbeat
        [{ id := "idC", name := "code", path := "/usr/bin/code",
           enrolledAt := "t0", lastSeen := none }] "/usr/bin/code" =
      some { project := "code", entity := "/usr/bin/code", entityType := "app",
             category := "coding", language := "TypeScript", isWrite := false } :=
  by
  have h := (claim_C6
    [{ id := "idC", name := "code", path := "/usr/bin/code",
       enrolledAt := "t0", lastSeen := none }] "/usr/bin/code"
    { id := "idC", name := "code", path := "/usr/bin/code",
      enrolledAt := "t0", lastSeen := none } rfl).1
  rw [h]
  decide

theorem eraseIdx_of_findIdx? {α : Type _} (p : α → Bool) (l : List α) :
    ∀ i, l.findIdx? p = some i → l.eraseIdx i = l.eraseP p := by
  induction l with
  | nil => intro i h; simp at h
  | cons x xs ih =>
    intro i h
    rw [List.findIdx?_cons] at h
    by_cases hx : p x
    · rw [if_pos hx] at h
      cases h
      simp [List.eraseP_cons_of_pos hx]
    · rw [if_neg hx, List.findIdx?_succ] at h
      obtain ⟨j, hj, hij⟩ := Option.map_eq_some'.mp h
      subst hij
      rw [List.eraseIdx_cons_succ, ih j hj, List.eraseP_cons_of_neg hx]

theorem anyCongr {α : Type _} {f g : α → Bool} :
    ∀ {l : List α}, (∀ x ∈ l, f x = g x) → l.any f = l.any g := by
  intro l
  induction l with
  | nil => intro _; rfl
  | cons x xs ih =>
    intro h
    simp only [List.any_cons, h x (List.mem_cons_self x xs),
      ih (fun y hy => h y (List.mem_cons_of_mem x hy))]

/-- The record `enrollProgram` builds on success. -/
def mkEnrolled (newId now programPath : String) : EnrolledProgram :=
  { id := newId, name := basename programPath, path := programPath,
    enrolledAt := now, lastSeen := none }

/-- C3: enrolling a path that does not exist on disk, or is already
enrolled (exact path match), fails with the validation rejection and
leaves the record set unchanged; enrolling a fresh existing path appends
exactly one record carrying the generated id, the current time and the
basename-derived name, persists it, returns it, makes `isEnrolled` true,
and keeps ids unique when the generated id is fresh. -/
theorem claim_C3 (fsExists : String → Bool) (newId now : String)
    (st : RegistryState) (programPath : String) :
    (fsExists programPath = false →
      enrollProgram fsExists newId now st programPath = (none, st)) ∧
    (isProgramEnrolled st.programs programPath = true →
      enrollProgram fsExists newId now st programPath = (none, st)) ∧
    (fsExists programPath = true →
      isProgramEnrolled st.programs programPath = false →
      enrollProgram fsExists newId now st programPath =
        (some (mkEnrolled newId now programPath),
         { programs := st.programs ++ [mkEnrolled newId now programPath],
           disk := DiskFile.content
             (st.programs ++ [mkEnrolled newId now programPath]) }) ∧
      (st.programs ++ [mkEnrolled newId now programPath]).countP
          (fun p => p.path == programPath) = 1 ∧
      isProgramEnrolled (st.programs ++ [mkEnrolled newId now programPath])
          programPath = true ∧
      ((st.programs.map (fun p => p.id)).Nodup →
        (∀ q ∈ st.programs, q.id ≠ newId) →
        ((st.programs ++ [mkEnrolled newId now programPath]).map
            (fun p => p.id)).Nodup)) := by
  refine ⟨?_, ?_, ?_⟩
  · intro h
    simp [enrollProgram, h]
  · intro h
    by_cases hf : fsExists programPath <;> simp [enrollProgram, hf, h]
  · intro hf he
    have hzero : st.programs.countP (fun p => p.path == programPath) = 0 := by
      rw [List.countP_eq_zero]
      intro a ha
      have he' : ∀ x ∈ st.programs, ¬(x.path == programPath) = true := by
        simpa [isProgramEnrolled] using he
      exact he' a ha
    refine ⟨by simp [enrollProgram, hf, he, mkEnrolled], ?_, ?_, ?_⟩
    · simp [List.countP_append, hzero, mkEnrolled, List.countP_cons]
    · simp [isProgramEnrolled, mkEnrolled]
    · intro hnd hfresh
      rw [List.map_append, List.nodup_append]
      refine ⟨hnd, by simp, ?_⟩
      intro a ha hb
      simp only [List.map_cons, List.map_nil, List.mem_singleton, mkEnrolled] at hb
      obtain ⟨q, hq, hqa⟩ := List.mem_map.mp ha
      exact hfresh q hq (by rw [hqa, hb])

/-- Witness for C3: enrolling the one existing path succeeds and appends
its record; re-enrolling it fails and keeps the state; enrolling a path
missing on disk fails and keeps the state. -/
theorem claim_C3_witness :
    enrollProgram (fun q => q == "/usr/bin/progA") "id1" "t1"
        { programs := [], disk := DiskFile.content [] } "/usr/bin/progA" =
      (some (mkEnrolled "id1" "t1" "/usr/bin/progA"),
       { programs := [mkEnrolled "id1" "t1" "/usr/bin/progA"],
         disk := DiskFile.content [mkEnrolled "id1" "t1" "/usr/bin/progA"] }) ∧
    enrollProgram (fun q => q == "/usr/bin/progA") "id2" "t2"
        { programs := [mkEnrolled "id1" "t1" "/usr/bin/progA"],
          disk := DiskFile.content [mkEnrolled "id1" "t1" "/usr/bin/progA"] }
        "/usr/bin/progA" =
      (none,
       { programs := [mkEnrolled "id1" "t1" "/usr/bin/progA"],
         disk := DiskFile.content [mkEnrolled "id1" "t1" "/usr/bin/progA"] }) ∧
    enrollProgram (fun q => q == "/usr/bin/progA") "id3" "t3"
        { programs := [], disk := DiskFile.content [] } "/usr/bin/progB" =
      (none, { programs := [], disk := DiskFile.content [] }) := by
  refine ⟨?_, ?_, ?_⟩
  · exact ((claim_C3 (fun q => q == "/usr/bin/progA") "id1" "t1"
      { programs := [], disk := DiskFile.content [] } "/usr/bin/progA").2.2
      (by decide) (by decide)).1
  · exact (claim_C3 (fun q => q == "/usr/bin/progA") "id2" "t2"
      { programs := [mkEnrolled "id1" "t1" "/usr/bin/progA"],
        disk := DiskFile.content [mkEnrolled "id1" "t1" "/usr/bin/progA"] }
      "/usr/bin/progA").2.1 (by decide)
  · exact (claim_C3 (fun q => q == "/usr/bin/progA") "id3" "t3"
      { programs := [], disk := DiskFile.content [] } "/usr/bin/progB").1
      (by decide)

/-- C5: removing an id that no record carries returns the not-found
indicator and leaves the registry untouched; removing an existing id
deletes exactly that record, persists the shrunk list, and makes
`isEnrolled` of its path false (the registry invariants — unique ids and
unique paths — are hypotheses). -/
theorem claim_C5 (st : RegistryState) (programId : String) (r : EnrolledProgram) :
    ((∀ p ∈ st.programs, p.id ≠ programId) →
      removeProgram st programId = (false, st)) ∧
    (r ∈ st.programs → r.id = programId →
      (st.programs.map (fun p => p.id)).Nodup →
      (st.programs.map (fun p => p.path)).Nodup →
      ∃ l₁ l₂, st.programs = l₁ ++ r :: l₂ ∧
        removeProgram st programId =
          (true, { programs := l₁ ++ l₂, disk := DiskFile.content (l₁ ++ l₂) }) ∧
        isProgramEnrolled (l₁ ++ l₂) r.path = false) := by
  constructor
  · intro h
    have hn : st.programs.findIdx? (fun p => p.id == programId) = none := by
      rw [List.findIdx?_eq_none_iff]
      intro x hx
      simpa using h x hx
    simp [removeProgram, hn]
  · intro hr hid hids hpaths
    have hpr : (fun p => p.id == programId) r = true := by simp [hid]
    have hsome : (st.programs.findIdx? (fun p => p.id == programId)).isSome := by
      rw [List.findIdx?_isSome, List.any_eq_true]
      exact ⟨r, hr, hpr⟩
    obtain ⟨i, hi⟩ := Option.isSome_iff_exists.mp hsome
    have herase := eraseIdx_of_findIdx? _ _ i hi
    obtain ⟨b, l₁, l₂, hl1, hpb, hsplit, herp⟩ := List.exists_of_eraseP (p := fun p => p.id == programId) hr hpr
    have hbr : b = r := by
      have hrmem : r ∈ l₁ ++ b :: l₂ := hsplit ▸ hr
      rcases List.mem_append.mp hrmem with h1 | h2
      · exact absurd hpr (hl1 r h1)
      · rcases List.mem_cons.mp h2 with hrb | hrl2
        · exact hrb.symm
        · exfalso
          have hids' : ((l₁ ++ b :: l₂).map (fun p => p.id)).Nodup := hsplit ▸ hids
          rw [List.map_append, List.map_cons] at hids'
          have hmid := List.nodup_middle.mp hids'
          have hbnot := (List.nodup_cons.mp hmid).1
          apply hbnot
          rw [← List.map_append]
          have hbid : b.id = programId := by simpa using hpb
          have : r.id ∈ (l₁ ++ l₂).map (fun p => p.id) :=
            List.mem_map.mpr ⟨r, List.mem_append.mpr (Or.inr hrl2), rfl⟩
          rw [hid] at this
          rw [hbid]
          exact this
    rw [hbr] at hsplit
    refine ⟨l₁, l₂, hsplit, ?_, ?_⟩
    · rw [removeProgram, hi]
      show (true, saveState { programs := st.programs.eraseIdx i, disk := st.disk }) = _
      rw [herase, herp]
      rfl
    · have hpaths' : ((l₁ ++ r :: l₂).map (fun p => p.path)).Nodup := hsplit ▸ hpaths
      rw [List.map_append, List.map_cons] at hpaths'
      have hmid := List.nodup_middle.mp hpaths'
      have hbnot := (List.nodup_cons.mp hmid).1
      rw [← List.map_append] at hbnot
      rw [isProgramEnrolled, List.any_eq_false]
      intro x hx hxp
      have hxeq : x.path = r.path := by simpa using hxp
      exact hbnot (List.mem_map.mpr ⟨x, hx, hxeq⟩)

/-- Witness for C5: removing a missing id is a no-op returning false;
removing the id of the first of two records makes its path
not-enrolled. -/
theorem claim_C5_witness :
    removeProgram
        { programs := [mkEnrolled "idA" "t0" "/usr/bin/progA",
                       mkEnrolled "idB" "t0" "/usr/bin/progB"],
          disk := DiskFile.content [] } "idMissing" =
      (false,
       { programs := [mkEnrolled "idA" "t0" "/usr/bin/progA",
                      mkEnrolled "idB" "t0" "/usr/bin/progB"],
         disk := DiskFile.content [] }) ∧
    isProgramEnrolled
        (removeProgram
          { programs := [mkEnrolled "idA" "t0" "/usr/bin/progA",
                         mkEnrolled "idB" "t0" "/usr/bin/progB"],
            disk := DiskFile.content [] } "idA").2.programs "/usr/bin/progA" =
      false := by
  constructor
  · exact (claim_C5
      { programs := [mkEnrolled "idA" "t0" "/usr/bin/progA",
                     mkEnrolled "idB" "t0" "/usr/bin/progB"],
        disk := DiskFile.content [] } "idMissing"
      (mkEnrolled "idA" "t0" "/usr/bin/progA")).1 (by decide)
  · obtain ⟨l₁, l₂, hsplit, heq, hno⟩ := (claim_C5
      { programs := [mkEnrolled "idA" "t0" "/usr/bin/progA",
                     mkEnrolled "idB" "t0" "/usr/bin/progB"],
        disk := DiskFile.content [] } "idA"
      (mkEnrolled "idA" "t0" "/usr/bin/progA")).2
      (by decide) rfl (by decide) (by decide)
    rw [heq]
    exact hno

/-- C8: under the invariant that the held handle is the unique armed
timer, `stop` disarms everything, is idempotent (a second `stop`, and a
`stop` before any `start`, changes nothing) and reports not running,
while `start` on a possibly running watcher re-establishes the
invariant with exactly one armed timer. -/
theorem claim_C8 (st : PWState) (ts : TimerSys) (h : pwWf st ts) :
    ((pwStop st ts).1.intervalId = none ∧
     (pwStop st ts).2.active = [] ∧
     pwIsRunning (pwStop st ts).1 = false ∧
     pwStop (pwStop st ts).1 (pwStop st ts).2 = pwStop st ts) ∧
    (pwWf (pwStart st ts).1 (pwStart st ts).2 ∧
     (pwStart st ts).2.active.length = 1 ∧
     pwIsRunning (pwStart st ts).1 = true) := by
  cases hst : st.intervalId with
  | none =>
    have hact : ts.active = [] := by
      rw [pwWf, hst] at h
      exact h
    constructor
    · refine ⟨by simp [pwStop, hst], by simp [pwStop, hst, hact], ?_, ?_⟩
      · simp [pwStop, hst, pwIsRunning]
      · simp [pwStop, hst]
    · refine ⟨?_, ?_, ?_⟩
      · rw [pwStart]
        simp [hst, setIntervalM, pwWf, hact]
      · simp [pwStart, hst, setIntervalM, hact]
      · simp [pwStart, hst, pwIsRunning]
  | some k =>
    have hact : ts.active = [k] := by
      rw [pwWf, hst] at h
      exact h
    have hcleared : clearIntervalM k ts = { ts with active := [] } := by
      simp [clearIntervalM, hact]
    constructor
    · refine ⟨by simp [pwStop, hst], ?_, ?_, ?_⟩
      · simp [pwStop, hst, hcleared]
      · simp [pwStop, hst, pwIsRunning]
      · simp [pwStop, hst]
    · refine ⟨?_, ?_, ?_⟩
      · rw [pwStart]
        simp [hst, pwStop, hcleared, setIntervalM, pwWf]
      · simp [pwStart, hst, pwStop, hcleared, setIntervalM]
      · simp [pwStart, hst, pwIsRunning]

/-- Witness for C8: a watcher holding timer 5 (the only armed timer):
stopping disarms it and is idempotent; starting re-arms exactly one
timer. -/
theorem claim_C8_witness :
    (pwStop ⟨some 5⟩ ⟨[5], 6⟩).2.active = [] ∧
    pwStop (pwStop ⟨some 5⟩ ⟨[5], 6⟩).1 (pwStop ⟨some 5⟩ ⟨[5], 6⟩).2 =
      pwStop ⟨some 5⟩ ⟨[5], 6⟩ ∧
    (pwStart ⟨some 5⟩ ⟨[5], 6⟩).2.active.length = 1 := by
  have h := claim_C8 ⟨some 5⟩ ⟨[5], 6⟩ rfl
  exact ⟨h.1.2.1, h.1.2.2.2, h.2.2.1⟩

/-! ### The three-cycle polling scenario -/

/-- Enrolled program A of the polling scenario. -/
def progA : EnrolledProgram :=
  { id := "idA", name := "progA", path := "/usr/bin/progA",
    enrolledAt := "t0", lastSeen := none }

/-- Enrolled program B of the polling scenario. -/
def progB : EnrolledProgram :=
  { id := "idB", name := "progB", path := "/usr/bin/progB",
    enrolledAt := "t0", lastSeen := none }

/-- Watcher state at the start of the scenario: A and B enrolled,
nothing reported yet. -/
def pollScenarioStart : PollState :=
  { registry := { programs := [progA, progB],
                  disk := DiskFile.content [progA, progB] },
    lastReported := [] }

/-- Snapshot in which only A is running. -/
def snapshotA : List RunningProcess := [⟨11, "progA", "/usr/bin/progA"⟩]

/-- Snapshot in which A and B are running. -/
def snapshotAB : List RunningProcess :=
  [⟨11, "progA", "/usr/bin/progA"⟩, ⟨22, "progB", "/usr/bin/progB"⟩]

/-- Snapshot in which only B is running. -/
def snapshotB : List RunningProcess := [⟨22, "progB", "/usr/bin/progB"⟩]

def pollCycle1 : CycleOutput × PollState :=
  checkEnrolledPrograms snapshotA "t1" pollScenarioStart

def pollCycle2 : CycleOutput × PollState :=
  checkEnrolledPrograms snapshotAB "t2" pollCycle1.2

def pollCycle3 : CycleOutput × PollState :=
  checkEnrolledPrograms snapshotB "t3" pollCycle2.2

/-- C1: over the scanner sequence running={A}, running={A,B},
running={B}, the watcher logs A entered at cycle 1 and B entered at
cycle 2, logs A exited at cycle 3, dispatches exactly one heartbeat per
enrolled-and-running path per cycle (A; A,B; B), and replaces
`lastReportedPrograms` with the current running set after every
cycle. -/
theorem claim_C1 :
    pollCycle1.1.entered = ["/usr/bin/progA"] ∧ pollCycle1.1.exited = [] ∧
    pollCycle1.1.heartbeats.map (fun h => h.entity) = ["/usr/bin/progA"] ∧
    pollCycle1.2.lastReported = ["/usr/bin/progA"] ∧
    pollCycle2.1.entered = ["/usr/bin/progB"] ∧ pollCycle2.1.exited = [] ∧
    pollCycle2.1.heartbeats.map (fun h => h.entity) =
      ["/usr/bin/progA", "/usr/bin/progB"] ∧
    pollCycle2.2.lastReported = ["/usr/bin/progA", "/usr/bin/progB"] ∧
    pollCycle3.1.entered = [] ∧ pollCycle3.1.exited = ["/usr/bin/progA"] ∧
    pollCycle3.1.heartbeats.map (fun h => h.entity) = ["/usr/bin/progB"] ∧
    pollCycle3.2.lastReported = ["/usr/bin/progB"] := by
  decide

/-! ### Windows scanner reduction -/

theorem mem_of_isPrefixList :
    ∀ {n h : List Char}, isPrefixList n h = true → ∀ a ∈ n, a ∈ h := by
  intro n
  induction n with
  | nil => intro h _ a ha; cases ha
  | cons x xs ih =>
    intro h hp a ha
    cases h with
    | nil => simp [isPrefixList] at hp
    | cons y ys =>
      rw [isPrefixList, Bool.and_eq_true] at hp
      rcases List.mem_cons.mp ha with rfl | hmem
      · rw [eq_of_beq hp.1]
        exact List.mem_cons_self y ys
      · exact List.mem_cons_of_mem y (ih hp.2 a hmem)

theorem mem_of_listHasInfixSeg :
    ∀ {h n : List Char}, listHasInfixSeg n h = true → ∀ a ∈ n, a ∈ h := by
  intro h
  induction h with
  | nil =>
    intro n hp a ha
    rw [listHasInfixSeg] at hp
    rw [List.isEmpty_iff.mp hp] at ha
    cases ha
  | cons c rest ih =>
    intro n hp a ha
    rw [listHasInfixSeg, Bool.or_eq_true] at hp
    rcases hp with hp | hp
    · exact mem_of_isPrefixList hp a ha
    · exact List.mem_cons_of_mem c (ih hp a ha)

theorem splitSegs_no_sep (isSep : Char → Bool) :
    ∀ (l : List Char), (∀ c ∈ l, isSep c = false) → splitSegs isSep l = [l] := by
  intro l
  induction l with
  | nil => intro _; rfl
  | cons c cs ih =>
    intro h
    rw [splitSegs]
    rw [ih (fun d hd => h d (List.mem_cons_of_mem c hd))]
    simp [h c (List.mem_cons_self c cs)]

theorem basenameBy_no_sep (isSep : Char → Bool) (p : String)
    (h : ∀ c ∈ p.toList, isSep c = false) : basenameBy isSep p = p := by
  rw [basenameBy, splitSegs_no_sep isSep p.toList h]
  by_cases hp : p.toList = []
  · rw [hp]
    have h1 : [([] : List Char)].filter (· ≠ []) = [] := by decide
    rw [h1]
    show String.mk [] = p
    exact hp ▸ strMk_toList p
  · have h1 : [p.toList].filter (· ≠ []) = [p.toList] := by
      simp only [List.filter_cons, List.filter_nil, decide_eq_true_eq, if_pos hp]
    rw [h1]
    show String.mk p.toList = p
    exact strMk_toList p

theorem parseTasklistLine_command (line : String) (proc : RunningProcess)
    (h : parseTasklistLine line = some proc) : proc.command = proc.name := by
  rw [parseTasklistLine] at h
  rcases hE : (jsSplit "\",\"" line).map stripQuotes with _ | ⟨a, _ | ⟨b, rest⟩⟩ <;>
    rw [hE] at h
  · cases h
  · cases h
  · injection h with h2
    rw [← h2]

/-- C10: every tuple the Windows scanner produces has its command equal
to its short name, and therefore, for an executable path that is not a
bare basename, the command-substring branch never fires and detection
reduces to the exact-name and extension-stripped comparisons. The
hypothesis `hsep` states the Windows constraint that tasklist image
names contain no path separator. -/
theorem claim_C10 (stdout p : String)
    (hsep : ∀ proc ∈ parseWindowsTasklist stdout,
      ∀ c ∈ proc.name.toList, (c == '/' || c == '\\') = false)
    (hp : p ≠ basenameWin32 p) :
    (∀ proc ∈ parseWindowsTasklist stdout, proc.command = proc.name) ∧
    (∀ proc ∈ parseWindowsTasklist stdout, strIncludes proc.command p = false) ∧
    isProcessRunningWin (parseWindowsTasklist stdout) p =
      (parseWindowsTasklist stdout).any (fun proc =>
        proc.name == basenameWin32 p ||
        stripExt proc.name == stripExt (basenameWin32 p)) := by
  have hcmd : ∀ proc ∈ parseWindowsTasklist stdout, proc.command = proc.name := by
    intro proc hmem
    rw [parseWindowsTasklist, List.mem_filterMap] at hmem
    obtain ⟨line, _, hline⟩ := hmem
    exact parseTasklistLine_command line proc hline
  have hsepP : ∃ c ∈ p.toList, (c == '/' || c == '\\') = true := by
    by_contra hno
    push_neg at hno
    apply hp
    refine (basenameBy_no_sep _ p ?_).symm
    intro c hc
    exact Bool.not_eq_true _ ▸ (hno c hc)
  obtain ⟨c, hcp, hc⟩ := hsepP
  have hinc : ∀ proc ∈ parseWindowsTasklist stdout,
      strIncludes proc.command p = false := by
    intro proc hmem
    by_contra hT
    have hT' : strIncludes proc.command p = true := by
      cases hEq : strIncludes proc.command p
      · exact absurd hEq hT
      · rfl
    have hcmem : c ∈ proc.command.toList :=
      mem_of_listHasInfixSeg hT' c hcp
    rw [hcmd proc hmem] at hcmem
    rw [hsep proc hmem c hcmem] at hc
    cases hc
  refine ⟨hcmd, hinc, ?_⟩
  rw [isProcessRunningWin, isProcessRunningCore]
  apply anyCongr
  intro proc hmem
  rw [boolIfChain, hinc proc hmem]
  cases proc.name == basenameWin32 p <;> simp

/-- Demo tasklist output used by the C10 witness. -/
def winDemoOut : String :=
  "\"code.exe\",\"1234\",\"Console\",\"1\",\"100 K\"\n\"notepad.exe\",\"77\",\"Console\",\"1\",\"8 K\""

/-- Witness for C10: on a two-line tasklist snapshot, every tuple's
command equals its name, the substring branch is dead for the full path
`C:\tools\code.sh`, and detection reduces to the name comparisons. -/
theorem claim_C10_witness :
    (∀ proc ∈ parseWindowsTasklist winDemoOut, proc.command = proc.name) ∧
    (∀ proc ∈ parseWindowsTasklist winDemoOut,
      strIncludes proc.command "C:\\tools\\code.sh" = false) ∧
    isProcessRunningWin (parseWindowsTasklist winDemoOut) "C:\\tools\\code.sh" =
      (parseWindowsTasklist winDemoOut).any (fun proc =>
        proc.name == basenameWin32 "C:\\tools\\code.sh" ||
        stripExt proc.name == stripExt (basenameWin32 "C:\\tools\\code.sh")) :=
  claim_C10 winDemoOut "C:\\tools\\code.sh" (by decide) (by decide)

end DesktopWakatime
